import Mathlib

/-!
Shallow embedding of `q_transformer/q_robotic_transformer.py`.

Tensors are modelled as curried real-valued functions over `Fin`-indexed
axes (`batch → position → channel → ℝ`), machine floats as real numbers,
and dropout layers as the identity (inference behaviour).  Modules become
parameter structures plus `forward` functions translated line by line from
the source.  The `Attend` module (`q_transformer/attend.py`) is imported by
the source file but not part of the given sources; its causal softmax is
modelled from the spec where indicated.
-/

/-- Vector of dimension `d`, the innermost tensor axis. -/
abbrev Vec (d : ℕ) : Type := Fin d → ℝ

/-- Logistic sigmoid, the `Tensor.sigmoid` / `nn.Sigmoid` activation. -/
noncomputable def sigmoid (x : ℝ) : ℝ := 1 / (1 + Real.exp (-x))

/-- SiLU activation `x * sigmoid x` (`nn.SiLU`). -/
noncomputable def silu (x : ℝ) : ℝ := x * sigmoid x

/-- Gauss error function, used by the exact GELU. -/
noncomputable def erf (x : ℝ) : ℝ :=
  (2 / Real.sqrt Real.pi) * ∫ t in (0:ℝ)..x, Real.exp (-(t ^ 2))

/-- GELU activation `x * Φ(x)` (`nn.GELU`). -/
noncomputable def gelu (x : ℝ) : ℝ := x * (1 + erf (x / Real.sqrt 2)) / 2

/-- The `eps` default of `nn.LayerNorm`. -/
noncomputable def lnEps : ℝ := 1 / 100000

/-- Mean of a vector over its `d` entries. -/
noncomputable def vecMean {d : ℕ} (x : Vec d) : ℝ := (∑ i, x i) / d

/-- Biased variance of a vector over its `d` entries. -/
noncomputable def vecVar {d : ℕ} (x : Vec d) : ℝ :=
  (∑ i, (x i - vecMean x) ^ 2) / d

/-- Layer normalization with `elementwise_affine = False`
(`nn.LayerNorm(dim, elementwise_affine = False)`). -/
noncomputable def layerNorm {d : ℕ} (x : Vec d) : Vec d :=
  fun i => (x i - vecMean x) / Real.sqrt (vecVar x + lnEps)

/-- Layer normalization with learned affine parameters (`nn.LayerNorm(dim)`). -/
noncomputable def layerNormAffine {d : ℕ} (g b : Vec d) (x : Vec d) : Vec d :=
  fun i => (x i - vecMean x) / Real.sqrt (vecVar x + lnEps) * g i + b i

/-- Parameters of an `nn.Linear(din, dout)` layer (with bias). -/
structure LinearP (din dout : ℕ) where
  weight : Fin dout → Fin din → ℝ
  bias : Fin dout → ℝ

/-- Application of an `nn.Linear` layer: `W x + b`. -/
noncomputable def LinearP.apply {din dout : ℕ} (p : LinearP din dout)
    (x : Vec din) : Vec dout :=
  fun o => (∑ i, p.weight o i * x i) + p.bias o

/-- Parameters of `TransformerAttention` (source lines 407-448): projection
weights `to_q`, `to_kv` split per head, memory key/values `mem_kv`, and the
output projection `to_out` (all `bias = False`). -/
structure AttnP (d H dh M : ℕ) where
  wq : Fin H → Fin dh → Fin d → ℝ
  wk : Fin H → Fin dh → Fin d → ℝ
  wv : Fin H → Fin dh → Fin d → ℝ
  memK : Fin H → Fin M → Vec dh
  memV : Fin H → Fin M → Vec dh
  wo : Fin d → Fin H → Fin dh → ℝ

/-- Scaled dot-product attention score between a query and one key, with
the standard scale `dim_head ** -0.5`. -/
noncomputable def attnScore {dh : ℕ} (q kk : Vec dh) : ℝ :=
  (Real.sqrt dh)⁻¹ * ∑ t, q t * kk t

/-- Sequence positions a causal query at position `i` may attend to:
exactly the positions `j ≤ i`. -/
def allowed {n : ℕ} (i : Fin n) : Finset (Fin n) :=
  Finset.univ.filter (fun j => j ≤ i)

/-- Modelled from the spec: the `Attend` module (file
`q_transformer/attend.py`) is imported but not among the given sources.
Per the spec it is "standard causal multi-head attention": with
`causal = True`, query position `i` attends to the prepended memory
key/values and to sequence positions `j ≤ i` only, through a softmax of
scaled dot-product scores.  This definition is one head of that
computation, with the softmax written as exponential weights normalized
over exactly the memory slots and the allowed positions. -/
noncomputable def attendCausalHead {dh M n : ℕ} (mK mV : Fin M → Vec dh)
    (k v : Fin n → Vec dh) (q : Vec dh) (i : Fin n) : Vec dh :=
  fun t => ((∑ m, Real.exp (attnScore q (mK m)) * mV m t) +
    ∑ j ∈ allowed i, Real.exp (attnScore q (k j)) * v j t) /
    ((∑ m, Real.exp (attnScore q (mK m))) +
      ∑ j ∈ allowed i, Real.exp (attnScore q (k j)))

/-- Forward pass of `TransformerAttention` (source lines 450-490) in the
self-attention configuration used by the Q head: `context = None`
(so keys/values come from the un-normalized input `kv_input = x`, while
queries come from the normalized input), `mask = None`, `cond_fn = None`,
`causal = True`.  Heads are computed by `attendCausalHead` and merged by
the output projection `to_out`.  The residual connection is added by
`Transformer.forward`, not here, as in the source. -/
noncomputable def TransformerAttention.forward {d H dh M n : ℕ}
    (p : AttnP d H dh M) (x : Fin n → Vec d) : Fin n → Vec d :=
  fun i c => ∑ h, ∑ t, p.wo c h t *
    attendCausalHead (p.memK h) (p.memV h)
      (fun j t' => ∑ c', p.wk h t' c' * x j c')
      (fun j t' => ∑ c', p.wv h t' c' * x j c')
      (fun t' => ∑ c', p.wq h t' c' * layerNorm (x i) c') i t

/-- Parameters of `FeedForward` (source lines 83-104): two `nn.Linear`
layers around a GELU. -/
structure FFP (d inner : ℕ) where
  lin1 : LinearP d inner
  lin2 : LinearP inner d

/-- Forward pass of `FeedForward` with `cond_fn = None`: normalize, then
`Linear → GELU → Linear` (dropouts are identity at inference). -/
noncomputable def FeedForward.forward {d inner : ℕ} (p : FFP d inner)
    (x : Vec d) : Vec d :=
  p.lin2.apply (fun j => gelu (p.lin1.apply (layerNorm x) j))

/-- Parameters of `Transformer` (source lines 492-510): a list of
(attention, feed-forward) layer pairs. -/
structure TransformerP (d H dh M inner : ℕ) where
  layers : List (AttnP d H dh M × FFP d inner)

/-- One layer of `Transformer.forward` (source lines 521-523):
`x = attn(x) + x; x = ff(x) + x`. -/
noncomputable def transformerLayer {d H dh M inner n : ℕ}
    (pa : AttnP d H dh M) (pf : FFP d inner) (x : Fin n → Vec d) :
    Fin n → Vec d :=
  fun i => FeedForward.forward pf (TransformerAttention.forward pa x i + x i) +
    (TransformerAttention.forward pa x i + x i)

/-- Forward pass of `Transformer` (source lines 512-525) with
`cond_fns = None` and no extra `attn_mask`, as called from
`QHeadMultipleActions`. -/
noncomputable def Transformer.forward {d H dh M inner n : ℕ}
    (p : TransformerP d H dh M inner) (x : Fin n → Vec d) : Fin n → Vec d :=
  p.layers.foldl (fun acc l => transformerLayer l.1 l.2 acc) x

/-- Parameters of `DuelingHead` (source lines 567-588) with the default
`expansion_factor = 2`: `stem`, `to_values`, `to_advantages`. -/
structure DuelingHeadP (d ab : ℕ) where
  stem : LinearP d (d * 2)
  to_values : LinearP (d * 2) 1
  to_advantages : LinearP (d * 2) ab

/-- Forward pass of `DuelingHead` (source lines 590-599): stem with SiLU,
advantages centered by their mean over the action-bin axis, plus the value
stream, squashed by a sigmoid. -/
noncomputable def DuelingHead.forward {d ab : ℕ} (p : DuelingHeadP d ab)
    (x : Vec d) : Fin ab → ℝ :=
  let xs : Vec (d * 2) := fun j => silu (p.stem.apply x j)
  let advantages0 : Fin ab → ℝ := p.to_advantages.apply xs
  let advantages : Fin ab → ℝ :=
    fun a => advantages0 a - (∑ a', advantages0 a') / ab
  let values : ℝ := p.to_values.apply xs 0
  fun a => sigmoid (values + advantages a)

/-- Parameters of `QHeadSingleAction` (source lines 603-629).  The source
builds either the dueling pipeline or the layer-norm/linear pipeline; both
parameter sets are carried here and `dueling` selects the branch. -/
structure QHeadSingleP (d ab : ℕ) where
  dueling : Bool
  duel : DuelingHeadP d ab
  lnG : Vec d
  lnB : Vec d
  lin : LinearP d ab

/-- Forward pass of `QHeadSingleAction` (source lines 649-650): mean-pool
the learned tokens over the sequence axis (`Reduce 'b (f n) d -> b d'`),
then either the dueling head, or `LayerNorm → Linear → Sigmoid`.  The
output has shape `batch × action_bins`. -/
noncomputable def QHeadSingleAction.forward {d ab b s : ℕ}
    (p : QHeadSingleP d ab) (enc : Fin b → Fin s → Vec d) :
    Fin b → Fin ab → ℝ :=
  fun bi =>
    let pooled : Vec d := fun t => (∑ j, enc bi j t) / s
    if p.dueling then
      DuelingHead.forward p.duel pooled
    else
      fun a => sigmoid (p.lin.apply (layerNormAffine p.lnG p.lnB pooled) a)

/-- Parameters of `QHeadMultipleActions` (source lines 652-683):
`action_bin_embeddings` of shape `num_actions × action_bins × dim`, the
causal transformer, the affine `final_norm`, and (for dueling) `to_values`
of shape `num_actions × dim`. -/
structure QHeadMultiP (d numActions ab H dh M inner : ℕ) where
  action_bin_embeddings : Fin numActions → Fin ab → Vec d
  transformer : TransformerP d H dh M inner
  fnG : Vec d
  fnB : Vec d
  dueling : Bool
  to_values : Fin numActions → Vec d

/-- Mean-pooled start-of-sequence token (`reduce(encoded_state,
'b ... d -> b 1 d', 'mean')`, source lines 715 and 759). -/
noncomputable def sosToken {d b s : ℕ} (enc : Fin b → Fin s → Vec d)
    (bi : Fin b) : Vec d :=
  fun t => (∑ j, enc bi j t) / s

/-- The causal transformer followed by `final_norm`, applied to a token
sequence (source lines 721-722 and 776-777). -/
noncomputable def QHeadMultipleActions.embedSeq {d na ab H dh M inner n : ℕ}
    (p : QHeadMultiP d (na + 1) ab H dh M inner) (x : Fin n → Vec d)
    (i : Fin n) : Vec d :=
  layerNormAffine p.fnG p.fnB (Transformer.forward p.transformer x i)

/-- The `get_q_values` method (source lines 689-703): dot the embedding of
each of the `n` leading action slots against that slot's bin-embedding
table (sliced `action_bin_embeddings[:n]`); in dueling mode add the value
stream to the mean-centered advantages; squash with a sigmoid. -/
noncomputable def QHeadMultipleActions.get_q_values
    {d na ab H dh M inner b n : ℕ}
    (p : QHeadMultiP d (na + 1) ab H dh M inner) (hn : n ≤ na + 1)
    (embed : Fin b → Fin n → Vec d) : Fin b → Fin n → Fin ab → ℝ :=
  fun bi ni a =>
    if p.dueling then
      let advantages : Fin ab → ℝ := fun a' =>
        ∑ t, embed bi ni t * p.action_bin_embeddings (Fin.castLE hn ni) a' t
      let values : ℝ := ∑ t, embed bi ni t * p.to_values (Fin.castLE hn ni) t
      sigmoid (values + (advantages a - (∑ a', advantages a') / ab))
    else
      sigmoid (∑ t, embed bi ni t * p.action_bin_embeddings (Fin.castLE hn ni) a t)

/-- Token sequence of the teacher-forced forward pass (source lines
761-772): the gathered bin embeddings of the supplied actions are
concatenated after the pooled `sos` token, and the concatenation is
truncated to the first `num_actions` tokens
(`tokens[:, :self.num_actions]`), dropping the final action's embedding. -/
noncomputable def QHeadMultipleActions.inputTokens {d na ab H dh M inner b s : ℕ}
    (p : QHeadMultiP d (na + 1) ab H dh M inner)
    (enc : Fin b → Fin s → Vec d)
    (acts : Fin b → Fin (na + 1) → Fin ab) (bi : Fin b)
    (j : Fin (na + 1)) : Vec d :=
  Fin.cases (motive := fun _ : Fin (na + 1 + 1) => Vec d)
    (sosToken enc bi)
    (fun k => p.action_bin_embeddings k (acts bi k))
    (Fin.castSucc j)

/-- The `forward` method of `QHeadMultipleActions` (source lines 744-779).
With supplied actions the transformer input is `inputTokens` (length
`num_actions`); without, it is the single `sos` token.  The first
component records the length of the action-slot axis of the returned
Q-value tensor. -/
noncomputable def QHeadMultipleActions.forward {d na ab H dh M inner b s : ℕ}
    (p : QHeadMultiP d (na + 1) ab H dh M inner)
    (enc : Fin b → Fin s → Vec d)
    (actions : Option (Fin b → Fin (na + 1) → Fin ab)) :
    (n : ℕ) × (Fin b → Fin n → Fin ab → ℝ) :=
  match actions with
  | some acts =>
      ⟨na + 1, QHeadMultipleActions.get_q_values p (Nat.le_refl (na + 1))
        (fun bi j => QHeadMultipleActions.embedSeq p
          (fun j' => QHeadMultipleActions.inputTokens p enc acts bi j') j)⟩
  | none =>
      ⟨1, QHeadMultipleActions.get_q_values p (Nat.succ_le_succ (Nat.zero_le na))
        (fun bi j => QHeadMultipleActions.embedSeq p
          (fun _ : Fin 1 => sosToken enc bi) j)⟩

/-- Left-to-right scan selecting the index of the first maximal value,
the tie-breaking behaviour of `torch.argmax` along a row. -/
noncomputable def argmaxList {n : ℕ} (f : Fin n → ℝ) :
    List (Fin n) → Fin n → Fin n
  | [], best => best
  | j :: rest, best => argmaxList f rest (if f best < f j then j else best)

/-- Index of the first maximal entry of a nonempty row (`torch.argmax`). -/
noncomputable def argmaxFin {a : ℕ} (f : Fin (a + 1) → ℝ) : Fin (a + 1) :=
  argmaxList f (List.finRange (a + 1)) 0

/-- Bin-embedding table of action slot `i`
(`bin_embeddings = self.action_bin_embeddings[action_idx]`, source line
725).  The out-of-range guard never fires along the actual loop, where
`i < num_actions`. -/
noncomputable def binTableAt {d na ab H dh M inner : ℕ}
    (p : QHeadMultiP d (na + 1) ab H dh M inner) (i : ℕ) :
    Fin ab → Vec d :=
  if h : i < na + 1 then p.action_bin_embeddings ⟨i, h⟩ else fun _ _ => 0

/-- Embedding at position `i` of the causal transformer plus `final_norm`
run over a token list (`embed = self.final_norm(self.transformer(...))`
then `embed[:, action_idx]`, source lines 721-724).  The out-of-range
guard never fires along the actual loop, where the list holds `i + 1`
tokens. -/
noncomputable def embedListAt {d na ab H dh M inner : ℕ}
    (p : QHeadMultiP d (na + 1) ab H dh M inner) (toks : List (Vec d))
    (i : ℕ) : Vec d :=
  if h : i < toks.length then
    QHeadMultipleActions.embedSeq p (fun j => toks.get j) ⟨i, h⟩
  else fun _ => 0

/-- One iteration of the decoding loop of `get_optimal_actions` (source
lines 720-734), at loop index `i`: run the causal transformer and
`final_norm` over batch row `bi` of the running inputs, take the
embedding at position `i`, score it against slot `i`'s bin-embedding
table (`einsum('b d, a d -> b a', ...)`), select the argmax bin
(`q_values.argmax(dim = -1)`), and append that bin's embedding to the
running inputs and the bin index to the accumulated output. -/
noncomputable def QHeadMultipleActions.goaStep {d na a H dh M inner b : ℕ}
    (p : QHeadMultiP d (na + 1) (a + 1) H dh M inner) (i : ℕ)
    (toks : List (Fin b → Vec d)) (bins : List (Fin b → Fin (a + 1))) :
    List (Fin b → Vec d) × List (Fin b → Fin (a + 1)) :=
  let sel : Fin b → Fin (a + 1) := fun bi => argmaxFin (fun a' =>
    ∑ t, embedListAt p (toks.map fun f => f bi) i t * binTableAt p i a' t)
  (toks ++ [fun bi => binTableAt p i (sel bi)], bins ++ [sel])

/-- The decoding loop `for action_idx in range(self.num_actions)` of
`get_optimal_actions`, as a countdown recursion: `i` is the current loop
index and `r` the number of remaining iterations. -/
noncomputable def QHeadMultipleActions.goaLoop {d na a H dh M inner b : ℕ}
    (p : QHeadMultiP d (na + 1) (a + 1) H dh M inner) :
    (i r : ℕ) → List (Fin b → Vec d) → List (Fin b → Fin (a + 1)) →
      List (Fin b → Fin (a + 1))
  | _, 0, _, bins => bins
  | i, r + 1, toks, bins =>
      QHeadMultipleActions.goaLoop p (i + 1) r
        (QHeadMultipleActions.goaStep p i toks bins).1
        (QHeadMultipleActions.goaStep p i toks bins).2

/-- The `get_optimal_actions` method (source lines 708-742) with
`return_q_values = False`: greedy autoregressive decoding starting from
the single mean-pooled `sos` token; the result lists the selected bin
index of every action slot in order (`torch.stack(action_bins, dim=-1)`
up to the axis layout). -/
noncomputable def QHeadMultipleActions.get_optimal_actions
    {d na a H dh M inner b s : ℕ}
    (p : QHeadMultiP d (na + 1) (a + 1) H dh M inner)
    (enc : Fin b → Fin s → Vec d) : List (Fin b → Fin (a + 1)) :=
  QHeadMultipleActions.goaLoop p 0 (na + 1) [fun bi => sosToken enc bi] []

/-- The token sequence reached after greedily decoding `i` action slots,
written the way the spec describes the algorithm: start from the pooled
state token alone; to extend, run the causal transformer, read the
embedding at the next slot's position, score it against that slot's
bin-embedding table, take the argmax bin and append that bin's
embedding to the sequence. -/
noncomputable def greedySpecToks {d na a H dh M inner : ℕ}
    (p : QHeadMultiP d (na + 1) (a + 1) H dh M inner) (sos : Vec d) :
    ℕ → List (Vec d)
  | 0 => [sos]
  | i + 1 =>
      greedySpecToks p sos i ++
        [binTableAt p i (argmaxFin (fun a' =>
          ∑ t, embedListAt p (greedySpecToks p sos i) i t *
            binTableAt p i a' t))]

/-- The bin greedily selected for slot `i`, per the spec's description of
the decoding recurrence. -/
noncomputable def greedySpecBin {d na a H dh M inner : ℕ}
    (p : QHeadMultiP d (na + 1) (a + 1) H dh M inner) (sos : Vec d)
    (i : ℕ) : Fin (a + 1) :=
  argmaxFin (fun a' =>
    ∑ t, embedListAt p (greedySpecToks p sos i) i t * binTableAt p i a' t)

/-- Faults a call into the model can raise: a failed `assert`
(`AssertionError`), a missing attribute (`AttributeError`), or a tensor
shape mismatch inside a framework operation. -/
inductive PyFault where
  | assertionError : PyFault
  | attributeError : PyFault
  | shapeError : PyFault
deriving DecidableEq

/-- The Q head held by `QRoboticTransformer` (source lines 864-877): a
`QHeadSingleAction` when `num_actions == 1`, else a `QHeadMultipleActions`
whose `num_actions` is at least 2. -/
inductive QHeadP (d ab H dh M inner : ℕ) where
  | single : QHeadSingleP d ab → QHeadP d ab H dh M inner
  | multi : (na : ℕ) → QHeadMultiP d (na + 2) ab H dh M inner →
      QHeadP d ab H dh M inner

/-- The `num_actions` hyperparameter encoded by a Q-head variant. -/
def QHeadP.numActions {d ab H dh M inner : ℕ} :
    QHeadP d ab H dh M inner → ℕ
  | .single _ => 1
  | .multi na _ => na + 2

/-- Q-value tensor returned by `QRoboticTransformer.forward`: rank 2
(`batch × action_bins`) from the single-action head, rank 3
(`batch × n × action_bins`) from the multi-action head, whose middle
axis length `n` is recorded. -/
inductive QValuesOut (b ab : ℕ) where
  | single : (Fin b → Fin ab → ℝ) → QValuesOut b ab
  | multi : (n : ℕ) → (Fin b → Fin n → Fin ab → ℝ) → QValuesOut b ab

/-- Length of the action-slot axis of a returned Q-value tensor, `none`
for the rank-2 single-action output which has no such axis. -/
def QValuesOut.middleDim {b ab : ℕ} : QValuesOut b ab → Option ℕ
  | .single _ => none
  | .multi n _ => some n

/-- Every entry of a returned Q-value tensor lies in the closed unit
interval. -/
def QValuesOut.inUnit {b ab : ℕ} : QValuesOut b ab → Prop
  | .single q => ∀ bi a, q bi a ∈ Set.Icc (0:ℝ) 1
  | .multi _ q => ∀ bi ni a, q bi ni a ∈ Set.Icc (0:ℝ) 1

/-- Every entry of the Q-value tensor of a non-faulting forward result
lies in the closed unit interval. -/
def resultInUnit {b ab : ℕ} : Except PyFault (QValuesOut b ab) → Prop
  | .error _ => True
  | .ok o => o.inUnit

/-- The `forward` method of `QRoboticTransformer` (source lines 978-1004),
taking the encoded state produced by `encode_state` (which ignores
`actions`) as input.  In single-action mode a supplied actions tensor
trips the `assert not exists(actions)` guard; in multi-action mode a
supplied actions tensor must have `num_actions` columns or the gather
against `action_bin_embeddings` faults. -/
noncomputable def QRoboticTransformer.forward {d ab H dh M inner b s : ℕ} :
    QHeadP d ab H dh M inner → (Fin b → Fin s → Vec d) →
    Option ((m : ℕ) × (Fin b → Fin m → Fin ab)) →
    Except PyFault (QValuesOut b ab)
  | .single _, _, some _ => .error .assertionError
  | .single sp, enc, none => .ok (.single (QHeadSingleAction.forward sp enc))
  | .multi na mp, enc, some ⟨m, acts⟩ =>
      if h : m = na + 2 then
        .ok (.multi
          (QHeadMultipleActions.forward mp enc
            (some (fun bi k => acts bi (Fin.cast h.symm k)))).1
          (QHeadMultipleActions.forward mp enc
            (some (fun bi k => acts bi (Fin.cast h.symm k)))).2)
      else .error .shapeError
  | .multi _ mp, enc, none =>
      .ok (.multi (QHeadMultipleActions.forward mp enc none).1
        (QHeadMultipleActions.forward mp enc none).2)

/-- Shape semantics of `pack([x], '* c h w')` (source line 554): the
leading axes collapse into one batch axis of their product size; returns
the packed 4-axis shape together with the remembered leading axes. -/
def packStar3 (s : List ℕ) : Option (List ℕ × List ℕ) :=
  match s.reverse with
  | w :: h :: c :: restRev =>
      some (restRev.reverse, [restRev.reverse.prod, c, h, w])
  | _ => none

/-- Shape semantics of `unpack(x, ps, '* c n')` (source line 562): the
packed batch axis is split back into the remembered leading axes. -/
def unpackStar2 (lead : List ℕ) : List ℕ → Option (List ℕ)
  | [bb, c, n] => if bb = lead.prod then some (lead ++ [c, n]) else none
  | _ => none

/-- Shape semantics of `repeat(x, 'b c h w -> b (g c) h w', g = ...)`
(source line 555): the channel axis is tiled `g` times, `g` outermost. -/
def repeatChanShape (g : ℕ) : List ℕ → Option (List ℕ)
  | [b, c, h, w] => some [b, g * c, h, w]
  | _ => none

/-- Shape semantics of a 1x1 `nn.Conv2d(cin, cout, 1, groups = g)`: the
channel count must match `cin` and be divisible into `g` groups (likewise
`cout`); spatial axes are preserved. -/
def convShape (cin cout g : ℕ) : List ℕ → Option (List ℕ)
  | [b, c, h, w] =>
      if c = cin ∧ g ∣ cin ∧ g ∣ cout then some [b, cout, h, w] else none
  | _ => none

/-- Shape semantics of `rearrange(attn, 'b g h w -> b 1 g h w')`
(source line 558). -/
def unsqueezeShape : List ℕ → Option (List ℕ)
  | [b, g, h, w] => some [b, 1, g, h, w]
  | _ => none

/-- Shape semantics of `rearrange(x, 'b (g c) h w -> b c g h w', g = ...)`
(source line 559): the channel axis splits into `g` outer groups. -/
def splitChanShape (g : ℕ) : List ℕ → Option (List ℕ)
  | [b, c, h, w] => if c % g = 0 then some [b, c / g, g, h, w] else none
  | _ => none

/-- Broadcasting rule of one axis pair for an elementwise product. -/
def bdim (a b : ℕ) : Option ℕ :=
  if a = b then some a
  else if a = 1 then some b
  else if b = 1 then some a
  else none

/-- Broadcast shape of an elementwise binary operation (`x * attn`,
source line 561). -/
def broadcastShape : List ℕ → List ℕ → Option (List ℕ)
  | [], [] => some []
  | a :: s, b :: t =>
      (bdim a b).bind fun c => (broadcastShape s t).map fun r => c :: r
  | _, _ => none

/-- Shape semantics of `reduce(…, 'b c g h w -> b c g', 'mean')`
(source line 561): the spatial axes are averaged away. -/
def reduceSpatialShape : List ℕ → Option (List ℕ)
  | [b, c, g, h, w] => some [b, c, g]
  | _ => none

/-- Shape semantics of `TokenLearner.forward` (source lines 553-563) for a
module built with hyperparameters `dim`, `ff_mult` and
`num_output_tokens = g`: pack the leading axes, tile the channels, apply
the two grouped 1x1 convolutions producing the attention maps, broadcast-
multiply against the grouped input, average over space, and unpack. -/
def TokenLearner.forwardShape (dim ffMult g : ℕ) (s : List ℕ) :
    Option (List ℕ) :=
  match packStar3 s with
  | none => none
  | some (lead, packed) =>
      (repeatChanShape g packed).bind fun xr =>
      (convShape (dim * g) (dim * ffMult * g) g xr).bind fun c1 =>
      (convShape (dim * ffMult * g) g g c1).bind fun attn =>
      (unsqueezeShape attn).bind fun attn5 =>
      (splitChanShape g xr).bind fun x5 =>
      (broadcastShape x5 attn5).bind fun prodShape =>
      (reduceSpatialShape prodShape).bind fun red =>
      unpackStar2 lead red

/-- Row `i` of the flattened `window_size × window_size` coordinate grid of
`Attention.__init__` (source lines 224-226): `meshgrid` with `'ij'`
indexing, stacked and flattened row-major, so row `i` holds the pair
`(i / w, i % w)`. -/
def gridRow (w : ℕ) (i : Fin (w * w)) : Fin 2 → ℤ :=
  fun c => if c = 0 then (i : ℕ) / w else (i : ℕ) % w

/-- The precomputed `rel_pos_indices` table of `Attention.__init__`
(source lines 227-229): pairwise coordinate differences shifted by
`window_size - 1`, then dotted with `[2 * window_size - 1, 1]`. -/
def relPosIndices (w : ℕ) (i j : Fin (w * w)) : ℤ :=
  ∑ c, (gridRow w i c - gridRow w j c + ((w : ℤ) - 1)) *
    (if c = 0 then 2 * (w : ℤ) - 1 else 1)

/-- Python attribute names involved in the `get_random_actions` call
paths. -/
inductive AttrName where
  | num_actions | action_bins | action_bin_embeddings | action_embeddings
  | transformer | final_norm | dueling | to_values | to_q_values | device
deriving DecidableEq

/-- Attributes reachable on a `QHeadMultipleActions` instance through
`nn.Module` attribute lookup: the fields assigned in `__init__` (source
lines 664-683).  The parameter is named `action_bin_embeddings`; no
attribute `action_embeddings` is ever assigned. -/
def QHeadMultipleActions.instanceAttrs : List AttrName :=
  [.num_actions, .action_bins, .action_bin_embeddings, .transformer,
   .final_norm, .dueling, .to_values]

/-- Attributes reachable on a `QHeadSingleAction` instance: the fields
assigned in `__init__` (source lines 612-629).  Neither the class nor
`nn.Module` defines `device`. -/
def QHeadSingleAction.instanceAttrs : List AttrName :=
  [.action_bins, .to_q_values]

/-- Attribute lookup on a `QHeadMultipleActions` instance.  Looking up
`device` runs the `device` property (source lines 685-687), whose body
reads `self.action_embeddings`; since no such attribute exists,
`nn.Module.__getattr__` raises `AttributeError`. -/
def QHeadMultipleActions.getattr (a : AttrName) : Except PyFault Unit :=
  if a = .device then
    if AttrName.action_embeddings ∈ QHeadMultipleActions.instanceAttrs then
      .ok () else .error .attributeError
  else if a ∈ QHeadMultipleActions.instanceAttrs then .ok ()
  else .error .attributeError

/-- Attribute lookup on a `QHeadSingleAction` instance: anything outside
the assigned fields raises `AttributeError` from
`nn.Module.__getattr__`. -/
def QHeadSingleAction.getattr (a : AttrName) : Except PyFault Unit :=
  if a ∈ QHeadSingleAction.instanceAttrs then .ok ()
  else .error .attributeError

/-- The `get_random_actions` method of `QHeadMultipleActions` (source
lines 705-706): `torch.randint(..., device = self.device)` first
evaluates `self.device`; the random result itself is irrelevant here, so
a successful call is modelled as `Unit`. -/
def QHeadMultipleActions.get_random_actions (batchSize : ℕ) :
    Except PyFault Unit :=
  (QHeadMultipleActions.getattr .device).map fun _ => ()

/-- The `get_random_actions` method of `QHeadSingleAction` (source lines
631-632): it likewise evaluates `self.device` first. -/
def QHeadSingleAction.get_random_actions (batchSize : ℕ) :
    Except PyFault Unit :=
  (QHeadSingleAction.getattr .device).map fun _ => ()

/-- The `get_random_actions` method of `QRoboticTransformer` (source
lines 883-884): it delegates to the held Q head. -/
def QRoboticTransformer.get_random_actions (isSingle : Bool)
    (batchSize : ℕ) : Except PyFault Unit :=
  if isSingle then QHeadSingleAction.get_random_actions batchSize
  else QHeadMultipleActions.get_random_actions batchSize

/-- The `get_actions` method of `QRoboticTransformer` (source lines
896-909): with probability epsilon it takes the exploration branch and
calls `get_random_actions`; the boolean records which branch the random
draw selected.  The non-exploring branch delegates to
`get_optimal_actions`, modelled as succeeding. -/
def QRoboticTransformer.get_actions (isSingle explore : Bool)
    (batchSize : ℕ) : Except PyFault Unit :=
  if explore then QRoboticTransformer.get_random_actions isSingle batchSize
  else .ok ()

/-- The frame-level attention mask of `QRoboticTransformer.encode_state`
(source line 963): `~ones(frames, frames).triu(1)`, true exactly on the
lower triangle including the diagonal. -/
def frameMask (i j : ℕ) : Bool := ! decide (i + 1 ≤ j)

/-- The token-level attention mask of `QRoboticTransformer.encode_state`
(source lines 963-964): the frame mask with every entry replicated
`num_learned_tokens` times along both axes
(`repeat(attn_mask, 'i j -> (i r1) (j r2)', r1 = n, r2 = n)`), so token
position `p` belongs to frame `p / n`. -/
def encodeStateAttnMask (frames n : ℕ) (p q : Fin (frames * n)) : Bool :=
  frameMask ((p : ℕ) / n) ((q : ℕ) / n)

/-- Token index of the `s`-th learned token of frame `i` inside the
flattened `(frames * n)`-token sequence. -/
def tokenIndex {frames n : ℕ} (i : Fin frames) (s : Fin n) :
    Fin (frames * n) :=
  ⟨(i : ℕ) * n + (s : ℕ), by
    calc (i : ℕ) * n + (s : ℕ) < (i : ℕ) * n + n := by
          exact Nat.add_lt_add_left s.isLt _
      _ = ((i : ℕ) + 1) * n := by ring
      _ ≤ frames * n := Nat.mul_le_mul_right n i.isLt⟩

/-- The all-zero vector, used to build concrete model instances. -/
noncomputable def zeroVec (d : ℕ) : Vec d := fun _ => 0

/-- An all-zero linear layer. -/
noncomputable def zeroLinearP (din dout : ℕ) : LinearP din dout :=
  ⟨fun _ _ => 0, fun _ => 0⟩

/-- An all-zero attention layer at width 1. -/
noncomputable def zeroAttnP : AttnP 1 1 1 1 :=
  ⟨fun _ _ _ => 0, fun _ _ _ => 0, fun _ _ _ => 0,
   fun _ _ => zeroVec 1, fun _ _ => zeroVec 1, fun _ _ _ => 0⟩

/-- An all-zero feed-forward layer at width 1. -/
noncomputable def zeroFFP : FFP 1 1 := ⟨zeroLinearP 1 1, zeroLinearP 1 1⟩

/-- A depth-2 transformer with all-zero parameters (the default
`attn_depth = 2` of the Q head). -/
noncomputable def zeroTransformerP : TransformerP 1 1 1 1 1 :=
  ⟨[(zeroAttnP, zeroFFP), (zeroAttnP, zeroFFP)]⟩

/-- An all-zero dueling head at width 1 with a single action bin. -/
noncomputable def zeroDuelingP : DuelingHeadP 1 1 :=
  ⟨zeroLinearP 1 (1 * 2), zeroLinearP (1 * 2) 1, zeroLinearP (1 * 2) 1⟩

/-- A concrete multi-action Q head: `num_actions = 2`, `action_bins = 1`,
all parameters zero, non-dueling. -/
noncomputable def zeroMultiP : QHeadMultiP 1 2 1 1 1 1 1 :=
  ⟨fun _ _ => zeroVec 1, zeroTransformerP, zeroVec 1, zeroVec 1, false,
   fun _ => zeroVec 1⟩

/-- The same concrete multi-action Q head with `dueling = True`. -/
noncomputable def duelMultiP : QHeadMultiP 1 2 1 1 1 1 1 :=
  ⟨fun _ _ => zeroVec 1, zeroTransformerP, zeroVec 1, zeroVec 1, true,
   fun _ => zeroVec 1⟩

/-- A concrete single-action Q head with all-zero parameters. -/
noncomputable def zeroSingleP : QHeadSingleP 1 1 :=
  ⟨false, zeroDuelingP, zeroVec 1, zeroVec 1, zeroLinearP 1 1⟩

/-- A concrete one-frame, one-token, width-1 encoded state of zeros. -/
noncomputable def zeroEnc : Fin 1 → Fin 1 → Vec 1 := fun _ _ => zeroVec 1

/-- A concrete all-zero actions tensor for the `num_actions = 2` head. -/
def zeroActs : Fin 1 → Fin 2 → Fin 1 := fun _ _ => 0

/-- A concrete all-zero one-slot embedding tensor. -/
noncomputable def zeroEmbed : Fin 1 → Fin 1 → Vec 1 := fun _ _ => zeroVec 1

/-- A concrete length-2 token sequence of zeros. -/
noncomputable def witX : Fin 2 → Vec 1 := fun _ => zeroVec 1

/-- A concrete length-2 token sequence agreeing with `witX` at position 0
only. -/
noncomputable def witY : Fin 2 → Vec 1 :=
  fun j _ => if j = 0 then 0 else 1

/-! The remainder of the file proves properties of the model above. -/

theorem sigmoid_mem_unit (x : ℝ) : sigmoid x ∈ Set.Icc (0:ℝ) 1 := by
  unfold sigmoid
  have h : (0:ℝ) < 1 + Real.exp (-x) := by positivity
  constructor
  · positivity
  · rw [div_le_one h]
    have := Real.exp_pos (-x)
    linarith

/-- Claim C8: for every pair of window positions `(i, j)`,
`rel_pos_indices[i][j]` encodes the coordinate offset
`grid[i] - grid[j]` shifted by `window_size - 1` (dotted with
`[2 * window_size - 1, 1]`), so swapping `i` and `j` yields the index of
the negated offset: `rel_pos_indices[i][j] + rel_pos_indices[j][i]` is
the same constant `4 * w * (w - 1)` for all pairs. -/
theorem c8_rel_pos_indices_antisymmetry (w : ℕ) (i j : Fin (w * w)) :
    relPosIndices w i j =
      (((i : ℕ) / w : ℤ) - ((j : ℕ) / w : ℤ) + ((w : ℤ) - 1)) *
          (2 * (w : ℤ) - 1) +
        (((i : ℕ) % w : ℤ) - ((j : ℕ) % w : ℤ) + ((w : ℤ) - 1)) ∧
    relPosIndices w i j + relPosIndices w j i =
      4 * (w : ℤ) * ((w : ℤ) - 1) := by
  constructor
  · simp [relPosIndices, gridRow, Fin.sum_univ_two]
  · simp only [relPosIndices, gridRow, Fin.sum_univ_two]
    norm_num
    ring

/-- Claim C10: the attention mask built in
`QRoboticTransformer.encode_state` is block-causal over frames: the
learned token `s` of frame `i` may attend to the learned token `t` of
frame `j` exactly when `j ≤ i` (in particular, tokens of the same frame
attend to each other in both directions, and no token attends to a later
frame). -/
theorem c10_encode_state_mask_block_causal (frames n : ℕ)
    (i j : Fin frames) (s t : Fin n) :
    encodeStateAttnMask frames n (tokenIndex i s) (tokenIndex j t) =
      decide ((j : ℕ) ≤ (i : ℕ)) := by
  have hn : 0 < n := s.pos
  have hdiv : ∀ (a : Fin frames) (c : Fin n),
      ((a : ℕ) * n + (c : ℕ)) / n = (a : ℕ) := by
    intro a c
    rw [Nat.mul_comm, Nat.mul_add_div hn, Nat.div_eq_of_lt c.isLt]
    omega
  unfold encodeStateAttnMask tokenIndex frameMask
  simp only [Fin.val_mk]
  rw [hdiv i s, hdiv j t]
  by_cases h : (j : ℕ) ≤ (i : ℕ) <;> simp [h] <;> omega

/-- Claim C9: `get_random_actions` raises `AttributeError` on both Q
heads (`QHeadMultipleActions.device` reads the nonexistent
`self.action_embeddings`; `QHeadSingleAction` has no `device` attribute
at all), hence `QRoboticTransformer.get_random_actions` raises for
either head, as does `get_actions` whenever the exploration branch is
taken. -/
theorem c9_get_random_actions_attribute_error (batchSize : ℕ)
    (isSingle : Bool) :
    QHeadMultipleActions.get_random_actions batchSize =
        .error .attributeError ∧
    QHeadSingleAction.get_random_actions batchSize =
        .error .attributeError ∧
    QRoboticTransformer.get_random_actions isSingle batchSize =
        .error .attributeError ∧
    QRoboticTransformer.get_actions isSingle true batchSize =
        .error .attributeError := by
  refine ⟨rfl, rfl, ?_, ?_⟩ <;> cases isSingle <;> rfl

/-- Claim C6: a `QRoboticTransformer` in single-action mode
(`num_actions == 1`) fails the assertion `assert not exists(actions)`
whenever an actions tensor is supplied, returning no Q-values. -/
theorem c6_single_action_rejects_actions (d ab H dh M inner b s m : ℕ)
    (sp : QHeadSingleP d ab) (enc : Fin b → Fin s → Vec d)
    (acts : Fin b → Fin m → Fin ab) :
    @QRoboticTransformer.forward d ab H dh M inner b s
        (.single sp) enc (some ⟨m, acts⟩) = .error .assertionError ∧
    (QHeadP.single sp : QHeadP d ab H dh M inner).numActions = 1 :=
  ⟨rfl, rfl⟩

/-- Claim C7: for every input feature map, of any spatial height and
width, `TokenLearner.forward` returns exactly `num_output_tokens` tokens
per frame — the output shape is the leading batch/frame axes followed by
the channel axis and a last axis of length `num_output_tokens`,
independent of `h` and `w`. -/
theorem c7_token_learner_output_tokens (dim ffMult g0 b f h w : ℕ) :
    TokenLearner.forwardShape dim ffMult (g0 + 1) [b, f, dim, h, w] =
      some [b, f, dim, g0 + 1] := by
  have hg : 0 < g0 + 1 := Nat.succ_pos g0
  have h1 : (g0 + 1) * dim = dim * (g0 + 1) := Nat.mul_comm _ _
  have h2 : (g0 + 1) ∣ dim * (g0 + 1) := dvd_mul_left _ _
  have h3 : (g0 + 1) ∣ dim * ffMult * (g0 + 1) := dvd_mul_left _ _
  have h4 : (g0 + 1) * dim % (g0 + 1) = 0 := Nat.mul_mod_right _ _
  have h5 : (g0 + 1) * dim / (g0 + 1) = dim := Nat.mul_div_cancel_left dim hg
  by_cases hd : dim = 1
  · subst hd
    simp [TokenLearner.forwardShape, packStar3, repeatChanShape, convShape,
      unsqueezeShape, splitChanShape, reduceSpatialShape, unpackStar2,
      broadcastShape, bdim, h1, h2, h3, h4, h5]
  · simp [TokenLearner.forwardShape, packStar3, repeatChanShape, convShape,
      unsqueezeShape, splitChanShape, reduceSpatialShape, unpackStar2,
      broadcastShape, bdim, h1, h2, h3, h4, h5, hd]

theorem get_q_values_mem_unit {d na ab H dh M inner b n : ℕ}
    (p : QHeadMultiP d (na + 1) ab H dh M inner) (hn : n ≤ na + 1)
    (embed : Fin b → Fin n → Vec d) (bi : Fin b) (ni : Fin n) (a : Fin ab) :
    QHeadMultipleActions.get_q_values p hn embed bi ni a ∈
      Set.Icc (0:ℝ) 1 := by
  unfold QHeadMultipleActions.get_q_values
  by_cases hd : p.dueling <;> simp only [hd, if_true, if_false] <;>
    exact sigmoid_mem_unit _

theorem single_forward_mem_unit {d ab b s : ℕ} (p : QHeadSingleP d ab)
    (enc : Fin b → Fin s → Vec d) (bi : Fin b) (a : Fin ab) :
    QHeadSingleAction.forward p enc bi a ∈ Set.Icc (0:ℝ) 1 := by
  unfold QHeadSingleAction.forward DuelingHead.forward
  by_cases hd : p.dueling <;> simp only [hd, if_true, if_false] <;>
    exact sigmoid_mem_unit _

theorem qrt_forward_multi_none_eq (d ab H dh M inner b s na : ℕ)
    (mp : QHeadMultiP d (na + 2) ab H dh M inner)
    (enc : Fin b → Fin s → Vec d) :
    @QRoboticTransformer.forward d ab H dh M inner b s
        (QHeadP.multi na mp) enc none =
      Except.ok (QValuesOut.multi 1
        (QHeadMultipleActions.get_q_values mp
          (Nat.succ_le_succ (Nat.zero_le (na + 1)))
          (fun bi j => QHeadMultipleActions.embedSeq mp
            (fun _ : Fin 1 => sosToken enc bi) j))) := rfl

theorem qrt_forward_multi_some_eq (d ab H dh M inner b s na : ℕ)
    (mp : QHeadMultiP d (na + 2) ab H dh M inner)
    (enc : Fin b → Fin s → Vec d)
    (acts : Fin b → Fin (na + 2) → Fin ab) :
    @QRoboticTransformer.forward d ab H dh M inner b s
        (QHeadP.multi na mp) enc (some ⟨na + 2, acts⟩) =
      Except.ok (QValuesOut.multi (na + 2)
        (QHeadMultipleActions.get_q_values mp (Nat.le_refl (na + 2))
          (fun bi j => QHeadMultipleActions.embedSeq mp
            (fun j' => QHeadMultipleActions.inputTokens mp enc
              (fun bi k => acts bi (Fin.cast rfl k)) bi j') j))) := by
  simp only [QRoboticTransformer.forward]
  rw [dif_pos trivial]
  rfl

theorem qrt_forward_single_none_eq (d ab H dh M inner b s : ℕ)
    (sp : QHeadSingleP d ab) (enc : Fin b → Fin s → Vec d) :
    @QRoboticTransformer.forward d ab H dh M inner b s
        (QHeadP.single sp) enc none =
      Except.ok (QValuesOut.single (QHeadSingleAction.forward sp enc)) := rfl

/-- Claim C1, counterexample: a valid multi-action configuration
(`num_actions = 2`) whose forward pass without a supplied actions tensor
returns a Q-value tensor whose action-slot axis has length 1, not
`num_actions`. -/
theorem c1_counterexample :
    Except.map QValuesOut.middleDim
        (@QRoboticTransformer.forward 1 1 1 1 1 1 1 1
          (QHeadP.multi 0 zeroMultiP) zeroEnc none) ≠
      Except.ok (some (QHeadP.numActions
        (@QHeadP.multi 1 1 1 1 1 1 0 zeroMultiP))) := by
  intro hEq
  have h1 : Except.map QValuesOut.middleDim
      (@QRoboticTransformer.forward 1 1 1 1 1 1 1 1
        (QHeadP.multi 0 zeroMultiP) zeroEnc none) =
      Except.ok (some 1) := rfl
  have h2 : QHeadP.numActions (@QHeadP.multi 1 1 1 1 1 1 0 zeroMultiP) = 2 :=
    rfl
  rw [h1, h2] at hEq
  simp at hEq

/-- Claim C1, amended: every entry of every returned Q-value tensor lies
in `[0, 1]`; the shape, however, depends on the mode: with a supplied
`batch × num_actions` actions tensor in multi-action mode the output is
`batch × num_actions × action_bins`; without one, multi-action mode
returns `batch × 1 × action_bins` (one decoded slot only); single-action
mode returns a rank-2 `batch × action_bins` tensor with no action-slot
axis. -/
theorem c1_qvalue_shape_and_range_amended
    (d ab H dh M inner b s na : ℕ)
    (mp : QHeadMultiP d (na + 2) ab H dh M inner)
    (sp : QHeadSingleP d ab)
    (enc : Fin b → Fin s → Vec d)
    (acts : Fin b → Fin (na + 2) → Fin ab) :
    (Except.map QValuesOut.middleDim
        (@QRoboticTransformer.forward d ab H dh M inner b s
          (QHeadP.multi na mp) enc (some ⟨na + 2, acts⟩)) =
        Except.ok (some (na + 2)) ∧
      resultInUnit (@QRoboticTransformer.forward d ab H dh M inner b s
        (QHeadP.multi na mp) enc (some ⟨na + 2, acts⟩))) ∧
    (Except.map QValuesOut.middleDim
        (@QRoboticTransformer.forward d ab H dh M inner b s
          (QHeadP.multi na mp) enc none) = Except.ok (some 1) ∧
      resultInUnit (@QRoboticTransformer.forward d ab H dh M inner b s
        (QHeadP.multi na mp) enc none)) ∧
    (Except.map QValuesOut.middleDim
        (@QRoboticTransformer.forward d ab H dh M inner b s
          (QHeadP.single sp) enc none) = Except.ok none ∧
      resultInUnit (@QRoboticTransformer.forward d ab H dh M inner b s
        (QHeadP.single sp) enc none)) := by
  refine ⟨⟨?_, ?_⟩, ⟨?_, ?_⟩, ⟨?_, ?_⟩⟩
  · rw [qrt_forward_multi_some_eq]; rfl
  · rw [qrt_forward_multi_some_eq]
    intro bi ni a
    exact get_q_values_mem_unit _ _ _ bi ni a
  · rw [qrt_forward_multi_none_eq]; rfl
  · rw [qrt_forward_multi_none_eq]
    intro bi ni a
    exact get_q_values_mem_unit _ _ _ bi ni a
  · rw [qrt_forward_single_none_eq]; rfl
  · rw [qrt_forward_single_none_eq]
    intro bi a
    exact single_forward_mem_unit _ _ bi a

/-- Claim C2: both `DuelingHead.forward` and the dueling branch of
`QHeadMultipleActions.get_q_values` return the sigmoid of
`value + (advantage - mean(advantage))`, where the mean of the advantage
stream is taken over the action-bin axis. -/
theorem c2_dueling_formula {d na ab H dh M inner b n : ℕ}
    (p : DuelingHeadP d ab) (x : Vec d) (a : Fin ab)
    (q : QHeadMultiP d (na + 1) ab H dh M inner) (hd : q.dueling = true)
    (hn : n ≤ na + 1) (embed : Fin b → Fin n → Vec d) (bi : Fin b)
    (ni : Fin n) :
    DuelingHead.forward p x a =
      sigmoid (p.to_values.apply (fun j => silu (p.stem.apply x j)) 0 +
        (p.to_advantages.apply (fun j => silu (p.stem.apply x j)) a -
          (∑ a', p.to_advantages.apply
            (fun j => silu (p.stem.apply x j)) a') / ab)) ∧
    QHeadMultipleActions.get_q_values q hn embed bi ni a =
      sigmoid ((∑ t, embed bi ni t * q.to_values (Fin.castLE hn ni) t) +
        ((∑ t, embed bi ni t *
            q.action_bin_embeddings (Fin.castLE hn ni) a t) -
          (∑ a', ∑ t, embed bi ni t *
            q.action_bin_embeddings (Fin.castLE hn ni) a' t) / ab)) := by
  constructor
  · rfl
  · unfold QHeadMultipleActions.get_q_values
    rw [if_pos hd]

theorem c2_dueling_formula_witness :
    duelMultiP.dueling = true ∧ (1 ≤ 1 + 1) ∧
    (DuelingHead.forward zeroDuelingP (zeroVec 1) 0 =
      sigmoid (zeroDuelingP.to_values.apply
          (fun j => silu (zeroDuelingP.stem.apply (zeroVec 1) j)) 0 +
        (zeroDuelingP.to_advantages.apply
            (fun j => silu (zeroDuelingP.stem.apply (zeroVec 1) j)) 0 -
          (∑ a', zeroDuelingP.to_advantages.apply
            (fun j => silu (zeroDuelingP.stem.apply (zeroVec 1) j)) a') /
            ((1:ℕ):ℝ))) ∧
    QHeadMultipleActions.get_q_values duelMultiP (Nat.le_succ 1)
        zeroEmbed 0 0 0 =
      sigmoid ((∑ t, zeroEmbed 0 0 t *
          duelMultiP.to_values (Fin.castLE (Nat.le_succ 1) 0) t) +
        ((∑ t, zeroEmbed 0 0 t *
            duelMultiP.action_bin_embeddings (Fin.castLE (Nat.le_succ 1) 0)
              0 t) -
          (∑ a', ∑ t, zeroEmbed 0 0 t *
            duelMultiP.action_bin_embeddings (Fin.castLE (Nat.le_succ 1) 0)
              a' t) / ((1:ℕ):ℝ)))) :=
  ⟨rfl, by decide,
    c2_dueling_formula zeroDuelingP (zeroVec 1) 0 duelMultiP rfl
      (Nat.le_succ 1) zeroEmbed 0 0⟩

/-- Claim C5: with a supplied `batch × num_actions` actions tensor, the
transformer input is the pooled state token followed by the bin
embeddings of the supplied actions shifted one slot right; the input
holds `num_actions` tokens, position `k + 1` holding the embedding of
action `k`, and the final action's bin embedding is excluded: the tokens
do not depend on the last action at all. -/
theorem c5_teacher_forcing_tokens {d na ab H dh M inner b s : ℕ}
    (p : QHeadMultiP d (na + 1) ab H dh M inner)
    (enc : Fin b → Fin s → Vec d)
    (acts acts' : Fin b → Fin (na + 1) → Fin ab) (bi : Fin b) :
    QHeadMultipleActions.inputTokens p enc acts bi 0 = sosToken enc bi ∧
    (∀ k : Fin na, QHeadMultipleActions.inputTokens p enc acts bi k.succ =
      p.action_bin_embeddings k.castSucc (acts bi k.castSucc)) ∧
    ((∀ m : Fin (na + 1), m ≠ Fin.last na → acts' bi m = acts bi m) →
      ∀ j : Fin (na + 1),
        QHeadMultipleActions.inputTokens p enc acts' bi j =
          QHeadMultipleActions.inputTokens p enc acts bi j) := by
  refine ⟨?_, ?_, ?_⟩
  · simp [QHeadMultipleActions.inputTokens]
  · intro k
    simp [QHeadMultipleActions.inputTokens, ← Fin.succ_castSucc]
  · intro hne j
    induction j using Fin.cases with
    | zero => rfl
    | succ k =>
        simp only [QHeadMultipleActions.inputTokens, ← Fin.succ_castSucc,
          Fin.cases_succ]
        rw [hne _ (Fin.ne_of_lt (Fin.castSucc_lt_last k))]

theorem c5_teacher_forcing_tokens_witness :
    (∀ m : Fin 2, m ≠ Fin.last 1 → zeroActs 0 m = zeroActs 0 m) ∧
    (QHeadMultipleActions.inputTokens zeroMultiP zeroEnc zeroActs 0 0 =
        sosToken zeroEnc 0 ∧
      (∀ k : Fin 1,
        QHeadMultipleActions.inputTokens zeroMultiP zeroEnc zeroActs 0
            k.succ =
          zeroMultiP.action_bin_embeddings k.castSucc
            (zeroActs 0 k.castSucc)) ∧
      ((∀ m : Fin 2, m ≠ Fin.last 1 → zeroActs 0 m = zeroActs 0 m) →
        ∀ j : Fin 2,
          QHeadMultipleActions.inputTokens zeroMultiP zeroEnc zeroActs 0 j =
            QHeadMultipleActions.inputTokens zeroMultiP zeroEnc zeroActs 0
              j)) :=
  ⟨fun _ _ => rfl,
    c5_teacher_forcing_tokens zeroMultiP zeroEnc zeroActs zeroActs 0⟩

theorem mem_allowed {n : ℕ} {i j : Fin n} : j ∈ allowed i ↔ j ≤ i := by
  simp [allowed]

theorem attendCausalHead_congr {dh M n : ℕ} (mK mV : Fin M → Vec dh)
    (k k' v v' : Fin n → Vec dh) (q : Vec dh) (i : Fin n)
    (hk : ∀ j, j ≤ i → k j = k' j) (hv : ∀ j, j ≤ i → v j = v' j) :
    attendCausalHead mK mV k v q i = attendCausalHead mK mV k' v' q i := by
  have hden : (∑ j ∈ allowed i, Real.exp (attnScore q (k j))) =
      ∑ j ∈ allowed i, Real.exp (attnScore q (k' j)) :=
    Finset.sum_congr rfl fun j hj => by rw [hk j (mem_allowed.mp hj)]
  funext t
  have hnum : (∑ j ∈ allowed i, Real.exp (attnScore q (k j)) * v j t) =
      ∑ j ∈ allowed i, Real.exp (attnScore q (k' j)) * v' j t :=
    Finset.sum_congr rfl fun j hj => by
      rw [hk j (mem_allowed.mp hj), hv j (mem_allowed.mp hj)]
  unfold attendCausalHead
  rw [hnum, hden]

theorem transformerAttention_congr {d H dh M n : ℕ} (p : AttnP d H dh M)
    (x y : Fin n → Vec d) (i : Fin n) (hxy : ∀ j, j ≤ i → x j = y j) :
    ∀ j, j ≤ i → TransformerAttention.forward p x j =
      TransformerAttention.forward p y j := by
  intro j hj
  funext c
  unfold TransformerAttention.forward
  refine Finset.sum_congr rfl fun h _ => Finset.sum_congr rfl fun t _ => ?_
  rw [hxy j hj]
  rw [attendCausalHead_congr (p.memK h) (p.memV h)
      (fun j' t' => ∑ c', p.wk h t' c' * x j' c')
      (fun j' t' => ∑ c', p.wk h t' c' * y j' c')
      (fun j' t' => ∑ c', p.wv h t' c' * x j' c')
      (fun j' t' => ∑ c', p.wv h t' c' * y j' c')
      (fun t' => ∑ c', p.wq h t' c' * layerNorm (y j) c') j
      (fun j' hj' => by simp only [hxy j' (le_trans hj' hj)])
      (fun j' hj' => by simp only [hxy j' (le_trans hj' hj)])]

theorem transformerLayer_congr {d H dh M inner n : ℕ} (pa : AttnP d H dh M)
    (pf : FFP d inner) (x y : Fin n → Vec d) (i : Fin n)
    (hxy : ∀ j, j ≤ i → x j = y j) :
    ∀ j, j ≤ i → transformerLayer pa pf x j = transformerLayer pa pf y j := by
  intro j hj
  unfold transformerLayer
  rw [transformerAttention_congr pa x y i hxy j hj, hxy j hj]

theorem foldl_layers_congr {d H dh M inner n : ℕ} :
    ∀ (L : List (AttnP d H dh M × FFP d inner)) (x y : Fin n → Vec d)
      (i : Fin n), (∀ j, j ≤ i → x j = y j) → ∀ j, j ≤ i →
      L.foldl (fun acc l => transformerLayer l.1 l.2 acc) x j =
        L.foldl (fun acc l => transformerLayer l.1 l.2 acc) y j
  | [], _, _, _, hxy, j, hj => hxy j hj
  | l :: L, x, y, i, hxy, j, hj => by
      simp only [List.foldl_cons]
      exact foldl_layers_congr L _ _ i
        (fun j' hj' => transformerLayer_congr l.1 l.2 x y i hxy j' hj') j hj

theorem embedSeq_congr {d na ab H dh M inner n : ℕ}
    (p : QHeadMultiP d (na + 1) ab H dh M inner) (x y : Fin n → Vec d)
    (i : Fin n) (hxy : ∀ j, j ≤ i → x j = y j) :
    QHeadMultipleActions.embedSeq p x i =
      QHeadMultipleActions.embedSeq p y i := by
  unfold QHeadMultipleActions.embedSeq Transformer.forward
  rw [foldl_layers_congr p.transformer.layers x y i hxy i (le_refl i)]

/-- Claim C3: in the multi-action Q head, the embedding produced at
position `i` of the causal transformer (followed by `final_norm`) is a
function only of the tokens at positions `≤ i` — two token sequences
agreeing up to `i` yield the same embedding at `i`; consequently, in the
teacher-forced forward pass, the embedding for action slot `i` depends
only on the pooled state token and the supplied actions at slots `< i`.
The same locality governs every transformer call of the autoregressive
decoder, whose step-`i` input holds only the pooled token and the slots
decoded before `i`. -/
theorem c3_causal_locality {d na ab H dh M inner b s : ℕ}
    (p : QHeadMultiP d (na + 1) ab H dh M inner) :
    (∀ (n : ℕ) (x y : Fin n → Vec d) (i : Fin n),
      (∀ j, j ≤ i → x j = y j) →
      QHeadMultipleActions.embedSeq p x i =
        QHeadMultipleActions.embedSeq p y i) ∧
    (∀ (enc : Fin b → Fin s → Vec d)
      (acts acts' : Fin b → Fin (na + 1) → Fin ab) (bi : Fin b)
      (i : Fin (na + 1)),
      (∀ k : Fin (na + 1), (k : ℕ) < (i : ℕ) → acts bi k = acts' bi k) →
      QHeadMultipleActions.embedSeq p
          (fun j => QHeadMultipleActions.inputTokens p enc acts bi j) i =
        QHeadMultipleActions.embedSeq p
          (fun j => QHeadMultipleActions.inputTokens p enc acts' bi j) i) := by
  constructor
  · exact fun n x y i hxy => embedSeq_congr p x y i hxy
  · intro enc acts acts' bi i hlt
    apply embedSeq_congr
    intro j hj
    induction j using Fin.cases with
    | zero => rfl
    | succ k =>
        have hjv : (k : ℕ) + 1 ≤ (i : ℕ) := by
          simpa [Fin.le_def] using hj
        have hki : ((k.castSucc : Fin (na + 1)) : ℕ) < (i : ℕ) := by
          simpa using Nat.lt_of_succ_le hjv
        simp only [QHeadMultipleActions.inputTokens, ← Fin.succ_castSucc,
          Fin.cases_succ]
        rw [hlt k.castSucc hki]

theorem c3_causal_locality_witness :
    (∀ j : Fin 2, j ≤ 0 → witX j = witY j) ∧
    QHeadMultipleActions.embedSeq zeroMultiP witX 0 =
      QHeadMultipleActions.embedSeq zeroMultiP witY 0 := by
  have hag : ∀ j : Fin 2, j ≤ 0 → witX j = witY j := by
    intro j hj
    have hj0 : j = 0 := Fin.le_zero_iff.mp hj
    subst hj0
    funext t
    simp [witX, witY, zeroVec]
  exact ⟨hag,
    (@c3_causal_locality 1 1 1 1 1 1 1 1 1 zeroMultiP).1 2 witX witY 0 hag⟩

theorem greedySpecToks_length {d na a H dh M inner : ℕ}
    (p : QHeadMultiP d (na + 1) (a + 1) H dh M inner) (sos : Vec d) :
    ∀ i : ℕ, (greedySpecToks p sos i).length = i + 1
  | 0 => rfl
  | i + 1 => by
      simp [greedySpecToks, greedySpecToks_length p sos i]

theorem goaStep_eq {d na a H dh M inner b : ℕ}
    (p : QHeadMultiP d (na + 1) (a + 1) H dh M inner) (i : ℕ)
    (toks : List (Fin b → Vec d)) (bins : List (Fin b → Fin (a + 1))) :
    QHeadMultipleActions.goaStep p i toks bins =
      (toks ++ [fun bi => binTableAt p i (argmaxFin (fun a' =>
          ∑ t, embedListAt p (toks.map fun f => f bi) i t *
            binTableAt p i a' t))],
        bins ++ [fun bi => argmaxFin (fun a' =>
          ∑ t, embedListAt p (toks.map fun f => f bi) i t *
            binTableAt p i a' t)]) := rfl

theorem greedySpecToks_succ {d na a H dh M inner : ℕ}
    (p : QHeadMultiP d (na + 1) (a + 1) H dh M inner) (sos : Vec d)
    (i : ℕ) :
    greedySpecToks p sos (i + 1) =
      greedySpecToks p sos i ++
        [binTableAt p i (greedySpecBin p sos i)] := rfl

theorem goaLoop_eq_spec {d na a H dh M inner b : ℕ}
    (p : QHeadMultiP d (na + 1) (a + 1) H dh M inner) (sos : Fin b → Vec d) :
    ∀ (r i : ℕ) (toks : List (Fin b → Vec d))
      (bins : List (Fin b → Fin (a + 1))) (bi : Fin b),
      toks.map (fun f => f bi) = greedySpecToks p (sos bi) i →
      bins.map (fun f => f bi) =
        (List.range i).map (greedySpecBin p (sos bi)) →
      (QHeadMultipleActions.goaLoop p i r toks bins).map (fun f => f bi) =
        (List.range (i + r)).map (greedySpecBin p (sos bi))
  | 0, i, toks, bins, bi, htoks, hbins => by
      simpa using hbins
  | r + 1, i, toks, bins, bi, htoks, hbins => by
      have h1 : ((QHeadMultipleActions.goaStep p i toks bins).1).map
          (fun f => f bi) = greedySpecToks p (sos bi) (i + 1) := by
        rw [goaStep_eq]
        simp only [List.map_append, List.map_cons, List.map_nil]
        rw [htoks, greedySpecToks_succ]
        rfl
      have h2 : ((QHeadMultipleActions.goaStep p i toks bins).2).map
          (fun f => f bi) =
          (List.range (i + 1)).map (greedySpecBin p (sos bi)) := by
        rw [goaStep_eq]
        simp only [List.map_append, List.map_cons, List.map_nil,
          List.range_succ]
        rw [htoks, hbins]
        rfl
      have hrec := goaLoop_eq_spec p sos r (i + 1)
        (QHeadMultipleActions.goaStep p i toks bins).1
        (QHeadMultipleActions.goaStep p i toks bins).2 bi h1 h2
      show (QHeadMultipleActions.goaLoop p (i + 1) r
          (QHeadMultipleActions.goaStep p i toks bins).1
          (QHeadMultipleActions.goaStep p i toks bins).2).map
        (fun f => f bi) = _
      have hadd : i + 1 + r = i + (r + 1) := by omega
      rw [hrec, hadd]

/-- Claim C4: `get_optimal_actions` implements greedy autoregressive
decoding — for every batch row, the list of selected bins it returns
equals, slot by slot over all `num_actions` slots, the spec recurrence
that starts from the pooled state token alone, runs the causal
transformer, reads the embedding at the current slot's position, scores
it against that slot's bin-embedding table, takes the argmax bin, and
appends that bin's embedding to the running sequence for the next
slot. -/
theorem c4_greedy_decoding {d na a H dh M inner b s : ℕ}
    (p : QHeadMultiP d (na + 1) (a + 1) H dh M inner)
    (enc : Fin b → Fin s → Vec d) (bi : Fin b) :
    (QHeadMultipleActions.get_optimal_actions p enc).map (fun f => f bi) =
      (List.range (na + 1)).map (greedySpecBin p (sosToken enc bi)) := by
  have h := goaLoop_eq_spec p (fun bi => sosToken enc bi) (na + 1) 0
    [fun bi => sosToken enc bi] [] bi (by simp [greedySpecToks]) (by simp)
  simpa using h
